import Mathlib

/-!
Verification of the BYOC ingestion core (`src/collections.py`).

The Python source is shallowly embedded: pure string/list manipulation is
translated to executable Lean functions, Python exceptions become `Except`
errors or `Option.none`, and the single piece of mutable state touched by
the claims (`Ingestor.file_list`) is threaded explicitly through an
`IngestorState` record.  Remote collaborators (the S3 lister and the
Sentinel Hub catalog) are abstracted as oracles / explicit input lists,
exactly as the spec treats them.
-/

namespace SHByoc

/-! ## Python-style primitives

Python sequence indexing accepts negative indices (counted from the end)
and raises `IndexError` when out of range; `str.split(sep)` raises
`ValueError: empty separator` when `sep` is empty.  These behaviours are
modelled with `Option`. -/

/-- Normalise a (possibly negative) Python index against a length;
`none` models `IndexError`. -/
def pyIdx (len : Nat) (i : Int) : Option Nat :=
  if 0 ≤ i then
    if i < (len : Int) then some i.toNat else none
  else
    let j := i + (len : Int)
    if 0 ≤ j then some j.toNat else none

/-- Python `l[i]` with negative-index support; `none` models `IndexError`. -/
def pyGet {α : Type} (l : List α) (i : Int) : Option α :=
  (pyIdx l.length i).bind fun j => l[j]?

/-- Python `l[i] = a` (list item assignment); `none` models `IndexError`. -/
def pySet {α : Type} (l : List α) (i : Int) (a : α) : Option (List α) :=
  (pyIdx l.length i).map fun j => l.set j a

/-- Splitting worker over character lists.  `fuel` only serves structural
termination; it is always supplied as more than the input length, and each
step consumes at least one input character because the separator is
nonempty. -/
def splitAux (sep : List Char) (fuel : Nat) (s : List Char) (cur : List Char) :
    List (List Char) :=
  match fuel with
  | 0 => [cur.reverse]
  | fuel + 1 =>
    match s with
    | [] => [cur.reverse]
    | c :: rest =>
      if sep.isPrefixOf (c :: rest) then
        cur.reverse :: splitAux sep fuel ((c :: rest).drop sep.length) []
      else
        splitAux sep fuel rest (c :: cur)

/-- Python `s.split(sep)` for a nonempty separator `sep`. -/
def splitStr (s sep : String) : List String :=
  (splitAux sep.data (s.data.length + 1) s.data []).map fun l => ⟨l⟩

/-- Python `s.split(sep)`: `none` models `ValueError: empty separator`. -/
def pySplit (s sep : String) : Option (List String) :=
  if sep = "" then none else some (splitStr s sep)

/-- Python `sep.join(parts)`. -/
def joinSep (sep : String) : List String → String
  | [] => ""
  | [x] => x
  | x :: y :: rest => x ++ sep ++ joinSep sep (y :: rest)

/-- Python `s.endswith(suf)`. -/
def pyEndsWith (s suf : String) : Bool :=
  suf.data.isSuffixOf s.data

/-! ## `datetime.strptime` model

`build_byoc_tiles` parses the date token with
`datetime.strptime(datetime_str, format)`.  The model supports the
fixed-width directives `%Y %m %d %H %M %S` (with the one/two-digit
tolerance of CPython's `_strptime` regexes) and literal characters;
a parse failure (`ValueError`) is `none`. -/

structure DateTime where
  year : Nat
  month : Nat
  day : Nat
  hour : Nat
  minute : Nat
  second : Nat
deriving DecidableEq

def isDigitChar (c : Char) : Bool :=
  '0' ≤ c && c ≤ '9'

def digitVal (c : Char) : Nat :=
  c.toNat - '0'.toNat

/-- Consume exactly `n` digits, returning their value. -/
def takeFixedDigitsAux : Nat → Nat → List Char → Option (Nat × List Char)
  | 0, acc, s => some (acc, s)
  | _ + 1, _, [] => none
  | n + 1, acc, c :: rest =>
    if isDigitChar c then takeFixedDigitsAux n (acc * 10 + digitVal c) rest
    else none

def takeFixedDigits (n : Nat) (s : List Char) : Option (Nat × List Char) :=
  takeFixedDigitsAux n 0 s

/-- Consume a two-digit value in `[lo, hi]`, falling back to a single digit
in `[lo, hi]` (mirroring the alternation in CPython's directive regexes). -/
def takeTwoOrOne (lo hi : Nat) : List Char → Option (Nat × List Char)
  | a :: b :: rest =>
    if isDigitChar a ∧ isDigitChar b ∧ lo ≤ 10 * digitVal a + digitVal b ∧
        10 * digitVal a + digitVal b ≤ hi then
      some (10 * digitVal a + digitVal b, rest)
    else if isDigitChar a ∧ lo ≤ digitVal a ∧ digitVal a ≤ hi then
      some (digitVal a, b :: rest)
    else none
  | [a] =>
    if isDigitChar a ∧ lo ≤ digitVal a ∧ digitVal a ≤ hi then
      some (digitVal a, [])
    else none
  | [] => none

def daysInMonth (y m : Nat) : Nat :=
  if m = 2 then
    if y % 4 = 0 ∧ (y % 100 ≠ 0 ∨ y % 400 = 0) then 29 else 28
  else if m = 4 ∨ m = 6 ∨ m = 9 ∨ m = 11 then 30
  else 31

def strptimeAux : List Char → List Char → DateTime → Option DateTime
  | [], [], acc => some acc
  | [], _ :: _, _ => none
  | '%' :: d :: fmtRest, s, acc =>
    match d with
    | 'Y' => (takeFixedDigits 4 s).bind fun p =>
        strptimeAux fmtRest p.2 { acc with year := p.1 }
    | 'm' => (takeTwoOrOne 1 12 s).bind fun p =>
        strptimeAux fmtRest p.2 { acc with month := p.1 }
    | 'd' => (takeTwoOrOne 1 31 s).bind fun p =>
        strptimeAux fmtRest p.2 { acc with day := p.1 }
    | 'H' => (takeTwoOrOne 0 23 s).bind fun p =>
        strptimeAux fmtRest p.2 { acc with hour := p.1 }
    | 'M' => (takeTwoOrOne 0 59 s).bind fun p =>
        strptimeAux fmtRest p.2 { acc with minute := p.1 }
    | 'S' => (takeTwoOrOne 0 59 s).bind fun p =>
        strptimeAux fmtRest p.2 { acc with second := p.1 }
    | '%' =>
      match s with
      | c :: s' => if c = '%' then strptimeAux fmtRest s' acc else none
      | [] => none
    | _ => none
  | c :: fmtRest, s, acc =>
    match s with
    | c' :: s' => if c = c' then strptimeAux fmtRest s' acc else none
    | [] => none

/-- Python `datetime.strptime(s, fmt)`; defaults are 1900-01-01 00:00:00,
any remaining unconverted data or an invalid calendar date is a failure. -/
def strptime (s fmt : String) : Option DateTime :=
  (strptimeAux fmt.data s.data
      { year := 1900, month := 1, day := 1, hour := 0, minute := 0, second := 0 }).bind
    fun dt =>
      if 1 ≤ dt.year ∧ 1 ≤ dt.month ∧ dt.month ≤ 12 ∧ 1 ≤ dt.day ∧
          dt.day ≤ daysInMonth dt.year dt.month then
        some dt
      else none

/-! ## Data model (`src/collections.py`)

`sensing_time_position` and `band_position` are the two configuration
dictionaries consumed by `Ingestor.build_byoc_tiles`; their `path`,
`delimiter`, `position` and `format` entries become structure fields.
A built tile is the pair `[byoc_path, datetime_obj]` appended to
`byoc_tiles`. -/

structure SensingTimePosition where
  path : Int
  delimiter : String
  position : Int
  format : String
deriving DecidableEq

structure BandPosition where
  path : Int
  delimiter : String
  position : Int
deriving DecidableEq

/-- A built tile: `(byoc_path, datetime_obj)` as produced by
`build_byoc_tiles`. -/
abbrev TileRec := String × DateTime

/-- The Python exceptions that can escape the extraction loop body of
`build_byoc_tiles`: `IndexError` from `[...]` indexing or item assignment,
`ValueError: empty separator` from `split("")`, and the `ValueError` from
`datetime.strptime` (the spec's `MalformedTimestampError`), which carries
the offending token. -/
inductive BuildError where
  | indexError
  | emptySeparator
  | malformedTimestamp (token : String)
deriving DecidableEq

/-- Lift a fallible Python sub-expression into the exception monad. -/
def liftOpt {α : Type} (o : Option α) (e : BuildError) : Except BuildError α :=
  match o with
  | some a => .ok a
  | none => .error e

/-! ## Path Convention Engine: the loop body of `build_byoc_tiles`

Straight-line translation of `src/collections.py` lines 213–226: split the
path on `"/"`, pick the sensing-time segment, split it by the configured
delimiter, pick and `strptime` the date token; pick the filename segment,
split it, overwrite the band sub-token with `"(BAND)"`, re-join; the
parent path is always `tile_path.split("/")[0:-1]`. -/

def extractTile (stp : SensingTimePosition) (bp : BandPosition)
    (tile_path : String) : Except BuildError TileRec := do
  let segs := splitStr tile_path "/"
  let folder_name ← liftOpt (pyGet segs stp.path) .indexError
  let parts ← liftOpt (pySplit folder_name stp.delimiter) .emptySeparator
  let datetime_str ← liftOpt (pyGet parts stp.position) .indexError
  let datetime_obj ← liftOpt (strptime datetime_str stp.format)
    (.malformedTimestamp datetime_str)
  let file_name ← liftOpt (pyGet segs bp.path) .indexError
  let split_file_name ← liftOpt (pySplit file_name bp.delimiter) .emptySeparator
  let substituted ← liftOpt (pySet split_file_name bp.position "(BAND)") .indexError
  let new_file_name := joinSep bp.delimiter substituted
  let parent_path := segs.dropLast
  let byoc_path := joinSep "/" parent_path ++ "/" ++ new_file_name
  return (byoc_path, datetime_obj)

/-- The sensing-time token extraction prefix of the loop body (lines
213–217), used to state which keys parse structurally. -/
def dateTokenOf (stp : SensingTimePosition) (tile_path : String) :
    Option String := do
  let folder_name ← pyGet (splitStr tile_path "/") stp.path
  let parts ← pySplit folder_name stp.delimiter
  pyGet parts stp.position

/-- The band-substitution part of the loop body (lines 221–224): the
selected filename segment with `"(BAND)"` written over the configured
sub-token. -/
def bandSubstOf (bp : BandPosition) (tile_path : String) : Option String := do
  let segs := splitStr tile_path "/"
  let file_name ← pyGet segs bp.path
  let split_file_name ← pySplit file_name bp.delimiter
  let substituted ← pySet split_file_name bp.position "(BAND)"
  return joinSep bp.delimiter substituted

/-! ## Tile Builder: `Ingestor.build_byoc_tiles` -/

/-- The loop of `build_byoc_tiles` (lines 211–230): `acc` is the
`byoc_tiles` accumulator, and a tile is appended only when its
`byoc_path` is not already among `[x[0] for x in byoc_tiles]`. -/
def buildAux (stp : SensingTimePosition) (bp : BandPosition) :
    List String → List TileRec → Except BuildError (List TileRec)
  | [], acc => .ok acc
  | p :: rest, acc =>
    match extractTile stp bp p with
    | .error e => .error e
    | .ok r =>
      if r.1 ∈ acc.map Prod.fst then buildAux stp bp rest acc
      else buildAux stp bp rest (acc ++ [r])

/-- `Ingestor.build_byoc_tiles`, with `self.file_list` passed explicitly. -/
def build_byoc_tiles (stp : SensingTimePosition) (bp : BandPosition)
    (file_list : List String) : Except BuildError (List TileRec) :=
  buildAux stp bp file_list []

/-- Pure dedup-by-first-component companion of the `buildAux` loop, used to
reason about which records survive. -/
def dedupAux (acc : List TileRec) : List TileRec → List TileRec
  | [] => acc
  | r :: rest =>
    if r.1 ∈ acc.map Prod.fst then dedupAux acc rest
    else dedupAux (acc ++ [r]) rest

instance {ε α : Type} [DecidableEq ε] [DecidableEq α] : DecidableEq (Except ε α)
  | .ok a, .ok b =>
    if h : a = b then isTrue (by rw [h]) else isFalse (by intro hh; cases hh; exact h rfl)
  | .ok _, .error _ => isFalse (by intro h; cases h)
  | .error _, .ok _ => isFalse (by intro h; cases h)
  | .error e, .error f =>
    if h : e = f then isTrue (by rw [h]) else isFalse (by intro hh; cases hh; exact h rfl)

/-! ## Tile Discoverer: `Ingestor.list_tiles`

The S3 collaborator is an oracle mapping a listing prefix to either the
flattened page contents (`"Contents"` keys across all pages, an absent
`"Contents"` being the empty list) or a remote failure.  `list_tiles`
first lists `base_path`, then re-lists every discovered object key and
keeps the keys that pass the suffix filter; the only Ingestor state it
touches is `self.file_list`, assigned after the loop completes. -/

structure IngestorState where
  file_list : List String
deriving DecidableEq

inductive DiscoveryError where
  | remoteFailure (msg : String)
deriving DecidableEq

abbrev S3Oracle := String → Except DiscoveryError (List String)

/-- The suffix filter of line 177–179:
`subobj["Key"].endswith((".tiff", ".tif", ".TIF", ".TIFF"))`. -/
def isTiffKey (key : String) : Bool :=
  pyEndsWith key ".tiff" || pyEndsWith key ".tif" ||
    pyEndsWith key ".TIF" || pyEndsWith key ".TIFF"

/-- The nested pagination loop of lines 168–180: for each object under the
base listing, re-list it and keep the matching keys, aborting on the first
remote failure. -/
def scanObjects (oracle : S3Oracle) :
    List String → Except DiscoveryError (List String)
  | [] => .ok []
  | obj :: rest => do
    let inner ← oracle obj
    let restTiffs ← scanObjects oracle rest
    return inner.filter isTiffKey ++ restTiffs

/-- The value computed by `list_tiles` before the `self.file_list`
assignment. -/
def listTilesResult (oracle : S3Oracle) (base_path : String) :
    Except DiscoveryError (List String) := do
  let outer ← oracle base_path
  scanObjects oracle outer

/-- `Ingestor.list_tiles`: on success the result is returned and stored in
`self.file_list`; a remote failure propagates before the assignment is
reached, leaving the state as it was. -/
def list_tiles (oracle : S3Oracle) (base_path : String) (st : IngestorState) :
    Except DiscoveryError (List String) × IngestorState :=
  match listTilesResult oracle base_path with
  | .ok tiff_files => (.ok tiff_files, { st with file_list := tiff_files })
  | .error e => (.error e, st)

/-! ## Ingestion Reconciler: `Ingestor.ingest_tiles_to_collection`

An existing catalog tile carries a path, a status string and (inside
`additionalData`) an optional `failedIngestionCause`; the nested-dict
presence check of lines 281–284 becomes an `Option`. -/

structure ExistingTile where
  path : String
  status : String
  failureCause : Option String
deriving DecidableEq

/-- The submission loop of lines 256–259: a built tile is submitted exactly
when its path is not among `[x.path for x in existing_tiles]`; the returned
list is the sequence of `create_tile` requests issued. -/
def submitNew (byoc_tiles : List TileRec) (existing_tiles : List ExistingTile) :
    List TileRec :=
  match byoc_tiles with
  | [] => []
  | t :: rest =>
    if t.1 ∈ existing_tiles.map ExistingTile.path then submitNew rest existing_tiles
    else t :: submitNew rest existing_tiles

/-- `Ingestor.ingest_tiles_to_collection`: build, then submit the tiles
whose paths are absent from the catalog. -/
def ingest_tiles_to_collection (stp : SensingTimePosition) (bp : BandPosition)
    (file_list : List String) (existing_tiles : List ExistingTile) :
    Except BuildError (List TileRec) :=
  (build_byoc_tiles stp bp file_list).map fun tiles => submitNew tiles existing_tiles

/-! ## Status report: `Ingestor.collection_tile_report` -/

structure IngestionReport where
  ingested : Nat
  failed : Nat
  pending : Nat
  total : Nat
deriving DecidableEq

/-- Failure message appended for a FAILED tile (lines 281–287). -/
def tileFailureMessage (t : ExistingTile) : String :=
  match t.failureCause with
  | some cause => cause
  | none => "Unknown failure for tile " ++ t.path

/-- One iteration of the counting loop of lines 275–289. -/
def reportStep (acc : IngestionReport × List String) (tile : ExistingTile) :
    IngestionReport × List String :=
  if tile.status = "INGESTED" then
    ({ acc.1 with ingested := acc.1.ingested + 1 }, acc.2)
  else if tile.status = "FAILED" then
    ({ acc.1 with failed := acc.1.failed + 1 }, acc.2 ++ [tileFailureMessage tile])
  else
    ({ acc.1 with pending := acc.1.pending + 1 }, acc.2)

/-- `Ingestor.collection_tile_report`, with the catalog's tile listing
passed explicitly: `Total` is fixed to the input length up front and the
loop fills the three status buckets and the failure list. -/
def collection_tile_report (tiles : List ExistingTile) :
    IngestionReport × List String :=
  tiles.foldl reportStep
    ({ ingested := 0, failed := 0, pending := 0, total := tiles.length }, [])

/-! ## Collection creation: `Ingestor.create_byoc_collection`

A band descriptor dictionary is an association list from field name to an
(opaque) string value.  The function validates the required fields of every
band before the `ByocCollection` request is assembled; the returned value is
the request that would be passed to the single network call
`byoc_client.create_collection`, so an `Except.error` result means that no
network call is attempted. -/

abbrev BandInfo := List (String × String)

structure ByocCollectionBand where
  source : String
  band_index : Nat
  bit_depth : String
  sample_format : String
deriving DecidableEq

structure ByocCollectionAdditionalData where
  bands : Option (List (String × ByocCollectionBand))
  storage_identifier : Option String
deriving DecidableEq

structure ByocCollectionReq where
  name : String
  s3_bucket : String
  additional_data : Option ByocCollectionAdditionalData
deriving DecidableEq

def required_fields : List String :=
  ["name", "source", "bit_depth", "sample_format"]

/-- `[field for field in required_fields if field not in band]` (line 100). -/
def bandMissingFields (band : BandInfo) : List String :=
  required_fields.filter fun f => !(band.map Prod.fst).contains f

/-- Dictionary access `band[f]`; the callers only use it after the
required-field check, so the key is always present. -/
def bandField (band : BandInfo) (f : String) : String :=
  (band.lookup f).getD ""

/-- The validation-and-assembly loop of lines 99–113 over
`band_information`, raising `ValueError` (the spec's `ConfigurationError`)
at the first band with missing required fields. -/
def buildBandParams : List BandInfo → Except String (List (String × ByocCollectionBand))
  | [] => .ok []
  | band :: rest =>
    let missing := bandMissingFields band
    if missing = [] then do
      let restParams ← buildBandParams rest
      return (bandField band "name",
        { source := bandField band "source", band_index := 1,
          bit_depth := bandField band "bit_depth",
          sample_format := bandField band "sample_format" }) :: restParams
    else
      .error ("Each band must contain " ++ joinSep ", " missing ++ " fields")

/-- `Ingestor.create_byoc_collection` up to the network call: either the
`ByocCollection` request handed to `create_collection`, or the
`ValueError` raised beforehand. -/
def create_byoc_collection (collection_name bucket_name : String)
    (storage_id : Option String) (band_information : Option (List BandInfo)) :
    Except String ByocCollectionReq :=
  match band_information with
  | some bands =>
    match buildBandParams bands with
    | .error msg => .error msg
    | .ok band_parameters =>
      let band_config : Option ByocCollectionAdditionalData :=
        match storage_id with
        | some sid => some { bands := some band_parameters, storage_identifier := some sid }
        | none => some { bands := some band_parameters, storage_identifier := none }
      .ok { name := collection_name, s3_bucket := bucket_name,
            additional_data := band_config }
  | none =>
    match storage_id with
    | some sid =>
      .ok { name := collection_name, s3_bucket := bucket_name,
            additional_data := some { bands := none, storage_identifier := some sid } }
    | none =>
      .ok { name := collection_name, s3_bucket := bucket_name,
            additional_data := none }

/-! ## Spec-side comparison definitions

These two definitions follow the wording of the specification (not the
source); they exist only to be compared with the source-derived
definitions above. -/

/-- Modelled from the spec: "`canonicalPath` = all path segments up to but
excluding the filename, joined by `/`, plus the band-substituted filename",
with the filename segment selected by the convention's configured index. -/
def canonicalPathPerSpecClause (bp : BandPosition) (tile_path : String) :
    Option String := do
  let segs := splitStr tile_path "/"
  let j ← pyIdx segs.length bp.path
  let fn ← bandSubstOf bp tile_path
  return joinSep "/" (segs.take j) ++ "/" ++ fn

/-- Modelled from the spec: a key matches when it "ends with `.tif` or
`.tiff` compared case-insensitively". -/
def caseInsensitiveTiffSpec (key : String) : Bool :=
  let lower : String := ⟨key.data.map Char.toLower⟩
  pyEndsWith lower ".tif" || pyEndsWith lower ".tiff"

/-! ## Lemmas about the status report -/

/-- The INGESTED bucket test of line 276. -/
def stIngested (t : ExistingTile) : Bool := t.status = "INGESTED"

/-- The FAILED bucket test of line 278. -/
def stFailed (t : ExistingTile) : Bool := t.status = "FAILED"

/-- The residual (`else`) bucket of line 288: neither INGESTED nor FAILED. -/
def stPending (t : ExistingTile) : Bool := !stIngested t && !stFailed t

/-- The counting loop in closed form: each bucket gains the number of tiles
with the matching status, `total` is untouched, and the failure messages of
the FAILED tiles are appended in order. -/
lemma report_foldl (tiles : List ExistingTile) (r : IngestionReport)
    (fl : List String) :
    tiles.foldl reportStep (r, fl) =
      ({ ingested := r.ingested + (tiles.filter stIngested).length,
         failed := r.failed + (tiles.filter stFailed).length,
         pending := r.pending + (tiles.filter stPending).length,
         total := r.total },
       fl ++ (tiles.filter stFailed).map tileFailureMessage) := by
  induction tiles generalizing r fl with
  | nil => simp
  | cons t rest ih =>
    by_cases h1 : t.status = "INGESTED"
    · have e1 : stIngested t = true := by simp [stIngested, h1]
      have e2 : stFailed t = false := by simp [stFailed, h1]
      have e3 : stPending t = false := by simp [stPending, e1]
      have hstep : reportStep (r, fl) t = ({ r with ingested := r.ingested + 1 }, fl) := by
        simp [reportStep, h1]
      rw [List.foldl_cons, hstep, ih]
      simp [List.filter_cons, e1, e2, e3, Prod.ext_iff, IngestionReport.mk.injEq]
      omega
    · by_cases h2 : t.status = "FAILED"
      · have e1 : stIngested t = false := by simp [stIngested, h1]
        have e2 : stFailed t = true := by simp [stFailed, h2]
        have e3 : stPending t = false := by simp [stPending, e2]
        have hstep : reportStep (r, fl) t =
            ({ r with failed := r.failed + 1 }, fl ++ [tileFailureMessage t]) := by
          simp [reportStep, h1, h2]
        rw [List.foldl_cons, hstep, ih]
        simp [List.filter_cons, e1, e2, e3, Prod.ext_iff, IngestionReport.mk.injEq]
        omega
      · have e1 : stIngested t = false := by simp [stIngested, h1]
        have e2 : stFailed t = false := by simp [stFailed, h2]
        have e3 : stPending t = true := by simp [stPending, e1, e2]
        have hstep : reportStep (r, fl) t = ({ r with pending := r.pending + 1 }, fl) := by
          simp [reportStep, h1, h2]
        rw [List.foldl_cons, hstep, ih]
        simp [List.filter_cons, e1, e2, e3, Prod.ext_iff, IngestionReport.mk.injEq]
        omega

/-- The three status buckets partition the input. -/
lemma status_buckets_partition (tiles : List ExistingTile) :
    (tiles.filter stIngested).length + (tiles.filter stFailed).length +
      (tiles.filter stPending).length = tiles.length := by
  induction tiles with
  | nil => simp
  | cons t rest ih =>
    by_cases h1 : t.status = "INGESTED"
    · have e1 : stIngested t = true := by simp [stIngested, h1]
      have e2 : stFailed t = false := by simp [stFailed, h1]
      have e3 : stPending t = false := by simp [stPending, e1]
      simp [List.filter_cons, e1, e2, e3]
      omega
    · by_cases h2 : t.status = "FAILED"
      · have e1 : stIngested t = false := by simp [stIngested, h1]
        have e2 : stFailed t = true := by simp [stFailed, h2]
        have e3 : stPending t = false := by simp [stPending, e2]
        simp [List.filter_cons, e1, e2, e3]
        omega
      · have e1 : stIngested t = false := by simp [stIngested, h1]
        have e2 : stFailed t = false := by simp [stFailed, h2]
        have e3 : stPending t = true := by simp [stPending, e1, e2]
        simp [List.filter_cons, e1, e2, e3]
        omega

/-- C3: for every input sequence of ExistingTile, the report of
`collection_tile_report` satisfies `Ingested + Failed + Pending = Total`,
`Total` equals the input length, and every tile whose status is neither
`INGESTED` nor `FAILED` is counted as `Pending` (and only those). -/
theorem collection_tile_report_counts (tiles : List ExistingTile) :
    (collection_tile_report tiles).1.ingested + (collection_tile_report tiles).1.failed +
        (collection_tile_report tiles).1.pending = (collection_tile_report tiles).1.total ∧
    (collection_tile_report tiles).1.total = tiles.length ∧
    (collection_tile_report tiles).1.pending = (tiles.filter stPending).length := by
  unfold collection_tile_report
  rw [report_foldl]
  refine ⟨?_, rfl, by simp⟩
  simpa using status_buckets_partition tiles

/-- C10: the failure-reason list of `collection_tile_report` is exactly the
in-order failure message of each FAILED tile (its cause when present, else
the placeholder naming its path), so its length equals the `Failed` count. -/
theorem collection_tile_report_failure_reasons (tiles : List ExistingTile) :
    (collection_tile_report tiles).2 =
      (tiles.filter stFailed).map tileFailureMessage ∧
    (collection_tile_report tiles).2.length = (collection_tile_report tiles).1.failed := by
  unfold collection_tile_report
  rw [report_foldl]
  simp

/-! ## Lemmas about the submission loop -/

/-- The `not in [x.path for x in existing_tiles]` test of line 258. -/
def pathAbsent (existing_tiles : List ExistingTile) (t : TileRec) : Bool :=
  decide (¬ t.1 ∈ existing_tiles.map ExistingTile.path)

lemma submitNew_filter (byoc_tiles : List TileRec)
    (existing_tiles : List ExistingTile) :
    submitNew byoc_tiles existing_tiles =
      byoc_tiles.filter (pathAbsent existing_tiles) := by
  induction byoc_tiles with
  | nil => rfl
  | cons t rest ih =>
    by_cases h : t.1 ∈ existing_tiles.map ExistingTile.path
    · have e : pathAbsent existing_tiles t = false := by simp [pathAbsent, h]
      simp only [submitNew, if_pos h, List.filter_cons, e, ite_false]
      exact ih
    · have e : pathAbsent existing_tiles t = true := by simp [pathAbsent, h]
      simp only [submitNew, if_neg h, List.filter_cons, e, ite_true]
      exact congrArg _ ih

lemma submitNew_nil_of_all_present (byoc_tiles : List TileRec)
    (existing_tiles : List ExistingTile)
    (h : ∀ t ∈ byoc_tiles, t.1 ∈ existing_tiles.map ExistingTile.path) :
    submitNew byoc_tiles existing_tiles = [] := by
  induction byoc_tiles with
  | nil => rfl
  | cons t rest ih =>
    have ht := h t (by simp)
    simp only [submitNew, if_pos ht]
    exact ih fun s hs => h s (by simp [hs])

lemma mem_submitNew_of_absent (byoc_tiles : List TileRec)
    (existing_tiles : List ExistingTile) (t : TileRec) (hmem : t ∈ byoc_tiles)
    (habs : ¬ t.1 ∈ existing_tiles.map ExistingTile.path) :
    t ∈ submitNew byoc_tiles existing_tiles := by
  rw [submitNew_filter]
  rw [List.mem_filter]
  exact ⟨hmem, by simp [pathAbsent, habs]⟩

/-- C2: the submission loop of `ingest_tiles_to_collection` issues a
`create_tile` request for exactly the built tiles whose path is absent from
the existing catalog tiles, and once those submissions are registered in
the catalog, repeating the call submits nothing. -/
theorem submitNew_exactly_absent (byoc_tiles : List TileRec)
    (existing_tiles : List ExistingTile) :
    submitNew byoc_tiles existing_tiles =
      byoc_tiles.filter (pathAbsent existing_tiles) ∧
    submitNew byoc_tiles
      (existing_tiles ++ (submitNew byoc_tiles existing_tiles).map
        fun t => { path := t.1, status := "PENDING", failureCause := none }) = [] := by
  refine ⟨submitNew_filter _ _, ?_⟩
  apply submitNew_nil_of_all_present
  intro t hmem
  by_cases h : t.1 ∈ existing_tiles.map ExistingTile.path
  · simp only [List.map_append, List.mem_append]
    exact Or.inl h
  · have hsub := mem_submitNew_of_absent byoc_tiles existing_tiles t hmem h
    simp only [List.map_append, List.mem_append, List.map_map, List.mem_map]
    exact Or.inr ⟨t, hsub, rfl⟩

/-! ## Discovery failure leaves the stored file list unchanged -/

/-- C9: when the remote listing fails during `list_tiles`, the error
propagates to the caller (no result list is returned) and the
`self.file_list` assignment is never reached, so the Ingestor state is
exactly what it was before the call. -/
theorem list_tiles_error_preserves_state (oracle : S3Oracle) (base_path : String)
    (st : IngestorState) (e : DiscoveryError)
    (herr : (list_tiles oracle base_path st).1 = .error e) :
    (list_tiles oracle base_path st).2 = st ∧
    ∀ res, (list_tiles oracle base_path st).1 ≠ .ok res := by
  unfold list_tiles at herr ⊢
  cases h : listTilesResult oracle base_path with
  | ok tiffs => rw [h] at herr; simp at herr
  | error e' => simp

/-- Witness for C9 at a concrete always-failing oracle and a nonempty
pre-existing file list. -/
theorem list_tiles_error_preserves_state_witness :
    (list_tiles (fun _ => .error (.remoteFailure "network"))
        "base" ⟨["old.tif"]⟩).2 = ⟨["old.tif"]⟩ ∧
    ∀ res, (list_tiles (fun _ => .error (.remoteFailure "network"))
        "base" ⟨["old.tif"]⟩).1 ≠ .ok res :=
  list_tiles_error_preserves_state (fun _ => .error (.remoteFailure "network"))
    "base" ⟨["old.tif"]⟩ (.remoteFailure "network") (by decide)

/-! ## Band-schema validation -/

lemma buildBandParams_error (bands : List BandInfo) (b : BandInfo)
    (hfind : bands.find? (fun bd => !(bandMissingFields bd).isEmpty) = some b) :
    buildBandParams bands =
      .error ("Each band must contain " ++ joinSep ", " (bandMissingFields b) ++ " fields") := by
  induction bands with
  | nil => simp at hfind
  | cons bd rest ih =>
    by_cases hm : bandMissingFields bd = []
    · have hp : (!(bandMissingFields bd).isEmpty) = false := by simp [hm]
      simp only [List.find?, hp] at hfind
      have herr := ih hfind
      simp only [buildBandParams, if_pos hm, herr, bind, Except.bind]
    · have hp : (!(bandMissingFields bd).isEmpty) = true := by
        simpa [List.isEmpty_iff] using hm
      simp only [List.find?, hp] at hfind
      cases hfind
      simp only [buildBandParams, if_neg hm]

/-- C8: when some band descriptor in `band_information` misses a required
field (`name`, `source`, `bit_depth`, `sample_format`),
`create_byoc_collection` fails with the `ValueError` (the spec's
`ConfigurationError`) whose message lists the missing fields of the first
offending band, and never produces the `ByocCollection` request that the
network call `create_collection` would receive — so the error precedes any
network call. -/
theorem create_byoc_collection_validates_bands (collection_name bucket_name : String)
    (storage_id : Option String) (bands : List BandInfo)
    (hbad : ∃ b ∈ bands, bandMissingFields b ≠ []) :
    ∃ b, bands.find? (fun bd => !(bandMissingFields bd).isEmpty) = some b ∧
      bandMissingFields b ≠ [] ∧
      create_byoc_collection collection_name bucket_name storage_id (some bands) =
        .error ("Each band must contain " ++ joinSep ", " (bandMissingFields b) ++ " fields") ∧
      ∀ req, create_byoc_collection collection_name bucket_name storage_id (some bands) ≠
        .ok req := by
  obtain ⟨b0, hb0, hbm⟩ := hbad
  have hsome : (bands.find? fun bd => !(bandMissingFields bd).isEmpty).isSome := by
    rw [List.find?_isSome]
    exact ⟨b0, hb0, by simpa [List.isEmpty_iff] using hbm⟩
  obtain ⟨b, hfind⟩ := Option.isSome_iff_exists.mp hsome
  have hbm' : bandMissingFields b ≠ [] := by
    have := List.find?_some hfind
    simpa [List.isEmpty_iff] using this
  have herr := buildBandParams_error bands b hfind
  refine ⟨b, hfind, hbm', ?_, ?_⟩
  · simp only [create_byoc_collection, herr]
  · intro req
    simp only [create_byoc_collection, herr]
    exact fun h => by cases h

/-- Witness for C8: a single band descriptor lacking `bit_depth` yields the
`ValueError` naming exactly that field. -/
theorem create_byoc_collection_validates_bands_witness :
    ∃ b, ([[("name", "B0"), ("source", "B0"), ("sample_format", "UINT8")]].find?
        fun bd => !(bandMissingFields bd).isEmpty) = some b ∧
      bandMissingFields b ≠ [] ∧
      create_byoc_collection "col" "bucket" none
          (some [[("name", "B0"), ("source", "B0"), ("sample_format", "UINT8")]]) =
        .error ("Each band must contain " ++ joinSep ", " (bandMissingFields b) ++ " fields") ∧
      ∀ req, create_byoc_collection "col" "bucket" none
          (some [[("name", "B0"), ("source", "B0"), ("sample_format", "UINT8")]]) ≠
        .ok req :=
  create_byoc_collection_validates_bands "col" "bucket" none
    [[("name", "B0"), ("source", "B0"), ("sample_format", "UINT8")]]
    ⟨[("name", "B0"), ("source", "B0"), ("sample_format", "UINT8")], by decide⟩

/-! ## Characterisation of the extraction loop body -/

@[simp] lemma optionBind_some {α β : Type} (a : α) (f : α → Option β) :
    (some a >>= f) = f a := rfl

@[simp] lemma optionBind_none {α β : Type} (f : α → Option β) :
    ((none : Option α) >>= f) = none := rfl

@[simp] lemma exceptBind_ok {ε α β : Type} (a : α) (f : α → Except ε β) :
    ((Except.ok a : Except ε α) >>= f) = f a := rfl

@[simp] lemma exceptBind_error {ε α β : Type} (e : ε) (f : α → Except ε β) :
    ((Except.error e : Except ε α) >>= f) = Except.error e := rfl

@[simp] lemma liftOpt_some {α : Type} (a : α) (e : BuildError) :
    liftOpt (some a) e = .ok a := rfl

@[simp] lemma liftOpt_none {α : Type} (e : BuildError) :
    liftOpt (none : Option α) e = .error e := rfl

@[simp] lemma exceptPure_eq_ok {ε α : Type} (a : α) :
    (pure a : Except ε α) = Except.ok a := rfl

/-- When the sensing-time token is extracted, its timestamp parses, and the
band substitution succeeds, the loop body yields the canonical path built
from all-but-the-last path segments plus the substituted filename. -/
lemma extractTile_ok_parts (stp : SensingTimePosition) (bp : BandPosition)
    (k : String) (t : String) (d : DateTime) (fn : String)
    (ht : dateTokenOf stp k = some t) (hd : strptime t stp.format = some d)
    (hfn : bandSubstOf bp k = some fn) :
    extractTile stp bp k =
      .ok (joinSep "/" ((splitStr k "/").dropLast) ++ "/" ++ fn, d) := by
  unfold dateTokenOf at ht
  unfold bandSubstOf at hfn
  cases h1 : pyGet (splitStr k "/") stp.path with
  | none => simp only [h1, optionBind_none] at ht; exact Option.noConfusion ht
  | some folder_name =>
    simp only [h1, optionBind_some] at ht
    cases h2 : pySplit folder_name stp.delimiter with
    | none => simp only [h2, optionBind_none] at ht; exact Option.noConfusion ht
    | some parts =>
      simp only [h2, optionBind_some] at ht
      cases h4 : pyGet (splitStr k "/") bp.path with
      | none => simp only [h4, optionBind_none] at hfn; exact Option.noConfusion hfn
      | some file_name =>
        simp only [h4, optionBind_some] at hfn
        cases h5 : pySplit file_name bp.delimiter with
        | none => simp only [h5, optionBind_none] at hfn; exact Option.noConfusion hfn
        | some split_file_name =>
          simp only [h5, optionBind_some] at hfn
          cases h6 : pySet split_file_name bp.position "(BAND)" with
          | none => simp only [h6, optionBind_none] at hfn; exact Option.noConfusion hfn
          | some substituted =>
            simp only [h6, optionBind_some, pure, Option.some.injEq] at hfn
            simp only [extractTile, h1, h2, h4, h5, h6, ht, hd, hfn,
              liftOpt_some, exceptBind_ok, exceptPure_eq_ok]

/-- When the sensing-time token is extracted but `strptime` rejects it, the
loop body raises the timestamp `ValueError` carrying that token. -/
lemma extractTile_error_timestamp (stp : SensingTimePosition) (bp : BandPosition)
    (k : String) (t : String)
    (ht : dateTokenOf stp k = some t) (hd : strptime t stp.format = none) :
    extractTile stp bp k = .error (.malformedTimestamp t) := by
  unfold dateTokenOf at ht
  cases h1 : pyGet (splitStr k "/") stp.path with
  | none => simp only [h1, optionBind_none] at ht; exact Option.noConfusion ht
  | some folder_name =>
    simp only [h1, optionBind_some] at ht
    cases h2 : pySplit folder_name stp.delimiter with
    | none => simp only [h2, optionBind_none] at ht; exact Option.noConfusion ht
    | some parts =>
      simp only [h2, optionBind_some] at ht
      simp only [extractTile, h1, h2, ht, hd,
        liftOpt_some, liftOpt_none, exceptBind_ok, exceptBind_error]

/-- Inversion: a successful loop body implies the token pipeline succeeded
and fixes the shape of the canonical path. -/
lemma extractTile_ok_inv (stp : SensingTimePosition) (bp : BandPosition)
    (k : String) (c : String) (d : DateTime)
    (h : extractTile stp bp k = .ok (c, d)) :
    ∃ t fn, dateTokenOf stp k = some t ∧ strptime t stp.format = some d ∧
      bandSubstOf bp k = some fn ∧
      c = joinSep "/" ((splitStr k "/").dropLast) ++ "/" ++ fn := by
  unfold extractTile at h
  cases h1 : pyGet (splitStr k "/") stp.path with
  | none => simp only [h1, liftOpt_none, exceptBind_error] at h; exact Except.noConfusion h
  | some folder_name =>
    simp only [h1, liftOpt_some, exceptBind_ok] at h
    cases h2 : pySplit folder_name stp.delimiter with
    | none => simp only [h2, liftOpt_none, exceptBind_error] at h; exact Except.noConfusion h
    | some parts =>
      simp only [h2, liftOpt_some, exceptBind_ok] at h
      cases h3 : pyGet parts stp.position with
      | none => simp only [h3, liftOpt_none, exceptBind_error] at h; exact Except.noConfusion h
      | some tok =>
        simp only [h3, liftOpt_some, exceptBind_ok] at h
        cases hd : strptime tok stp.format with
        | none => simp only [hd, liftOpt_none, exceptBind_error] at h; exact Except.noConfusion h
        | some dt =>
          simp only [hd, liftOpt_some, exceptBind_ok] at h
          cases h4 : pyGet (splitStr k "/") bp.path with
          | none => simp only [h4, liftOpt_none, exceptBind_error] at h; exact Except.noConfusion h
          | some file_name =>
            simp only [h4, liftOpt_some, exceptBind_ok] at h
            cases h5 : pySplit file_name bp.delimiter with
            | none => simp only [h5, liftOpt_none, exceptBind_error] at h; exact Except.noConfusion h
            | some split_file_name =>
              simp only [h5, liftOpt_some, exceptBind_ok] at h
              cases h6 : pySet split_file_name bp.position "(BAND)" with
              | none => simp only [h6, liftOpt_none, exceptBind_error] at h; exact Except.noConfusion h
              | some substituted =>
                simp only [h6, liftOpt_some, exceptBind_ok, exceptPure_eq_ok,
                  Except.ok.injEq, Prod.mk.injEq] at h
                refine ⟨tok, joinSep bp.delimiter substituted,
                  ?_, ?_, ?_, h.1.symm⟩
                · simp [dateTokenOf, h1, h2, h3]
                · rw [← h.2]; exact hd
                · simp [bandSubstOf, h4, h5, h6]

/-- C5 (amended): for every path and convention, a successful derivation's
canonical path is all path segments except the last (regardless of the
configured filename index), joined by `/`, followed by the band-substituted
segment selected by the configured index. -/
theorem extractTile_canonical_structure (stp : SensingTimePosition)
    (bp : BandPosition) (k : String) (c : String) (d : DateTime)
    (h : extractTile stp bp k = .ok (c, d)) :
    ∃ fn, bandSubstOf bp k = some fn ∧
      c = joinSep "/" ((splitStr k "/").dropLast) ++ "/" ++ fn := by
  obtain ⟨t, fn, _, _, hfn, hc⟩ := extractTile_ok_inv stp bp k c d h
  exact ⟨fn, hfn, hc⟩

/-- Witness for C5 (amended) at the S2 example path. -/
theorem extractTile_canonical_structure_witness :
    ∃ fn, bandSubstOf ⟨-1, "_", 0⟩ "S2/20230615/B04_10m.tif" = some fn ∧
      "S2/20230615/(BAND)_10m.tif" =
        joinSep "/" ((splitStr "S2/20230615/B04_10m.tif" "/").dropLast) ++ "/" ++ fn :=
  extractTile_canonical_structure ⟨1, "_", 0, "%Y%m%d"⟩ ⟨-1, "_", 0⟩
    "S2/20230615/B04_10m.tif" "S2/20230615/(BAND)_10m.tif"
    ⟨2023, 6, 15, 0, 0, 0⟩ (by decide)

/-- C5 (counterexample): with the filename index configured to `0` on a
three-segment path, the code still keeps every segment but the last in the
parent path, so the canonical path differs from the spec's "all segments up
to but excluding the filename segment selected by the configured index". -/
theorem canonical_path_spec_clause_counterexample :
    extractTile ⟨1, "-", 0, "%Y%m%d"⟩ ⟨0, "_", 0⟩ "B04_10m/20230615/x.tif" =
      .ok ("B04_10m/20230615/(BAND)_10m", ⟨2023, 6, 15, 0, 0, 0⟩) ∧
    canonicalPathPerSpecClause ⟨0, "_", 0⟩ "B04_10m/20230615/x.tif" =
      some "/(BAND)_10m" ∧
    ("B04_10m/20230615/(BAND)_10m" : String) ≠ "/(BAND)_10m" := by
  refine ⟨by decide, by decide, by decide⟩

/-- C4 (counterexample): with the sensing-time delimiter configured as the
empty string, `folder_name.split("")` raises `ValueError: empty separator`,
so the derivation fails instead of returning the canonical path and sensing
time the claim states. -/
theorem derive_empty_delimiter_counterexample :
    extractTile ⟨1, "", 0, "%Y%m%d"⟩ ⟨-1, "_", 0⟩ "S2/20230615/B04_10m.tif" =
      .error .emptySeparator ∧
    extractTile ⟨1, "", 0, "%Y%m%d"⟩ ⟨-1, "_", 0⟩ "S2/20230615/B04_10m.tif" ≠
      .ok ("S2/20230615/(BAND)_10m.tif", ⟨2023, 6, 15, 0, 0, 0⟩) := by
  refine ⟨by decide, by decide⟩

/-- C4 (amended): with a sensing-time delimiter that does not occur in the
date segment (so the segment survives splitting whole, e.g. `"_"`), the
derivation on `"S2/20230615/B04_10m.tif"` returns canonical path
`"S2/20230615/(BAND)_10m.tif"` and sensing time 2023-06-15T00:00:00. -/
theorem derive_s2_example :
    extractTile ⟨1, "_", 0, "%Y%m%d"⟩ ⟨-1, "_", 0⟩ "S2/20230615/B04_10m.tif" =
      .ok ("S2/20230615/(BAND)_10m.tif", ⟨2023, 6, 15, 0, 0, 0⟩) := by
  decide

/-! ## Suffix filtering in discovery -/

/-- Membership in a successful `scanObjects` run is exactly: some listed
object re-lists to a page containing the key, and the key passes the
literal four-suffix filter. -/
lemma scanObjects_mem (oracle : S3Oracle) (objs : List String)
    (res : List String) (hok : scanObjects oracle objs = .ok res) (key : String) :
    key ∈ res ↔ ∃ obj ∈ objs, ∃ inner, oracle obj = .ok inner ∧
      key ∈ inner ∧ isTiffKey key = true := by
  induction objs generalizing res with
  | nil =>
    simp only [scanObjects, Except.ok.injEq] at hok
    subst hok
    simp
  | cons obj rest ih =>
    unfold scanObjects at hok
    cases hi : oracle obj with
    | error e => simp only [hi, exceptBind_error] at hok; exact Except.noConfusion hok
    | ok inner =>
      simp only [hi, exceptBind_ok] at hok
      cases hr : scanObjects oracle rest with
      | error e => simp only [hr, exceptBind_error] at hok; exact Except.noConfusion hok
      | ok restRes =>
        simp only [hr, exceptBind_ok, exceptPure_eq_ok, Except.ok.injEq] at hok
        subst hok
        constructor
        · intro hmem
          rcases List.mem_append.mp hmem with hleft | hright
          · have := List.mem_filter.mp hleft
            exact ⟨obj, by simp, inner, hi, this.1, this.2⟩
          · obtain ⟨o, ho, inner2, hio, hkm, hkt⟩ := (ih restRes hr).mp hright
            exact ⟨o, by simp [ho], inner2, hio, hkm, hkt⟩
        · rintro ⟨o, ho, inner2, hio, hkm, hkt⟩
          rcases List.mem_cons.mp ho with rfl | ho2
          · have : inner2 = inner := by
              have := hi.symm.trans hio
              exact (Except.ok.injEq _ _).mp this.symm
            subst this
            exact List.mem_append.mpr (Or.inl (List.mem_filter.mpr ⟨hkm, hkt⟩))
          · exact List.mem_append.mpr (Or.inr ((ih restRes hr).mpr ⟨o, ho2, inner2, hio, hkm, hkt⟩))

/-- C6 (amended): a key surfaces in a successful `list_tiles` result iff the
remote store returned it under some re-listed object and it ends with one of
the four literal suffixes `.tif`, `.tiff`, `.TIF`, `.TIFF` tested by
`endswith` — not with an arbitrary case variant. -/
theorem list_tiles_member_iff (oracle : S3Oracle) (base_path : String)
    (res : List String) (hok : listTilesResult oracle base_path = .ok res)
    (key : String) :
    key ∈ res ↔ ∃ outer, oracle base_path = .ok outer ∧
      ∃ obj ∈ outer, ∃ inner, oracle obj = .ok inner ∧
        key ∈ inner ∧ isTiffKey key = true := by
  unfold listTilesResult at hok
  cases ho : oracle base_path with
  | error e => simp only [ho, exceptBind_error] at hok; exact Except.noConfusion hok
  | ok outer =>
    simp only [ho, exceptBind_ok] at hok
    rw [scanObjects_mem oracle outer res hok key]
    constructor
    · rintro ⟨obj, hobj, inner, hio, hkm, hkt⟩
      exact ⟨outer, rfl, obj, hobj, inner, hio, hkm, hkt⟩
    · rintro ⟨outer2, houter2, obj, hobj, inner, hio, hkm, hkt⟩
      injection houter2 with hh
      subst hh
      exact ⟨obj, hobj, inner, hio, hkm, hkt⟩

/-- Witness for C6 (amended) on a one-object store whose key ends in the
literal suffix `.tif`. -/
theorem list_tiles_member_iff_witness :
    "a/b.tif" ∈ ["a/b.tif"] ↔ ∃ outer,
      (fun _ => (.ok ["a/b.tif"] : Except DiscoveryError (List String))) "p" = .ok outer ∧
      ∃ obj ∈ outer, ∃ inner,
        (fun _ => (.ok ["a/b.tif"] : Except DiscoveryError (List String))) obj = .ok inner ∧
        "a/b.tif" ∈ inner ∧ isTiffKey "a/b.tif" = true :=
  list_tiles_member_iff (fun _ => .ok ["a/b.tif"]) "p" ["a/b.tif"] (by decide) "a/b.tif"

/-- C6 (counterexample): the store returns the key `"a.Tif"`, which ends
with `.tif` case-insensitively, yet `list_tiles` filters it out because
`endswith((".tiff", ".tif", ".TIF", ".TIFF"))` admits no mixed-case
variant. -/
theorem list_tiles_mixed_case_counterexample :
    listTilesResult (fun _ => .ok ["a.Tif"]) "p" = .ok [] ∧
    caseInsensitiveTiffSpec "a.Tif" = true ∧
    isTiffKey "a.Tif" = false := by
  refine ⟨by decide, by decide, by decide⟩


/-! ## Deduplication by canonical path in the build loop -/

lemma dedupAux_acc_mem : ∀ (rs acc : List TileRec) (r : TileRec),
    r ∈ acc → r ∈ dedupAux acc rs := by
  intro rs
  induction rs with
  | nil => intro acc r h; simpa [dedupAux] using h
  | cons s rest ih =>
    intro acc r h
    by_cases hm : s.1 ∈ acc.map Prod.fst
    · simp only [dedupAux, if_pos hm]; exact ih acc r h
    · simp only [dedupAux, if_neg hm]; exact ih (acc ++ [s]) r (by simp [h])

lemma dedupAux_mem_fst : ∀ (rs acc : List TileRec) (r : TileRec),
    r ∈ rs → r.1 ∈ (dedupAux acc rs).map Prod.fst := by
  intro rs
  induction rs with
  | nil => intro acc r h; simp at h
  | cons s rest ih =>
    intro acc r h
    rcases List.mem_cons.mp h with rfl | h2
    · by_cases hm : r.1 ∈ acc.map Prod.fst
      · simp only [dedupAux, if_pos hm]
        obtain ⟨a, ha, hfa⟩ := List.mem_map.mp hm
        exact hfa ▸ List.mem_map.mpr ⟨a, dedupAux_acc_mem rest acc a ha, rfl⟩
      · simp only [dedupAux, if_neg hm]
        exact List.mem_map.mpr
          ⟨r, dedupAux_acc_mem rest (acc ++ [r]) r (by simp), rfl⟩
    · by_cases hm : s.1 ∈ acc.map Prod.fst
      · simp only [dedupAux, if_pos hm]; exact ih acc r h2
      · simp only [dedupAux, if_neg hm]; exact ih (acc ++ [s]) r h2

lemma dedupAux_nodup : ∀ (rs acc : List TileRec),
    (acc.map Prod.fst).Nodup → ((dedupAux acc rs).map Prod.fst).Nodup := by
  intro rs
  induction rs with
  | nil => intro acc h; simpa [dedupAux] using h
  | cons s rest ih =>
    intro acc h
    by_cases hm : s.1 ∈ acc.map Prod.fst
    · simp only [dedupAux, if_pos hm]; exact ih acc h
    · simp only [dedupAux, if_neg hm]
      apply ih
      rw [List.map_append]
      simp [List.nodup_append, h, hm]

lemma dedupAux_first_wins : ∀ (rs acc : List TileRec) (r : TileRec),
    r ∈ dedupAux acc rs →
    r ∈ acc ∨ (¬ r.1 ∈ acc.map Prod.fst ∧
      ∃ pre post, rs = pre ++ r :: post ∧ ∀ s ∈ pre, s.1 ≠ r.1) := by
  intro rs
  induction rs with
  | nil => intro acc r h; left; simpa [dedupAux] using h
  | cons s rest ih =>
    intro acc r h
    by_cases hm : s.1 ∈ acc.map Prod.fst
    · simp only [dedupAux, if_pos hm] at h
      rcases ih acc r h with hacc | ⟨hnf, pre, post, heq, hpre⟩
      · exact Or.inl hacc
      · refine Or.inr ⟨hnf, s :: pre, post, by simp [heq], ?_⟩
        intro s2 hs2
        rcases List.mem_cons.mp hs2 with rfl | hs3
        · intro hcontra; exact hnf (hcontra ▸ hm)
        · exact hpre s2 hs3
    · simp only [dedupAux, if_neg hm] at h
      rcases ih (acc ++ [s]) r h with hacc | ⟨hnf, pre, post, heq, hpre⟩
      · rcases List.mem_append.mp hacc with h1 | h1
        · exact Or.inl h1
        · have hrs : r = s := by simpa using h1
          subst hrs
          exact Or.inr ⟨hm, [], rest, rfl, by simp⟩
      · refine Or.inr ⟨fun hc => hnf (by simp [hc]), s :: pre, post, by simp [heq], ?_⟩
        intro s2 hs2
        rcases List.mem_cons.mp hs2 with rfl | hs3
        · intro hcontra
          exact hnf (by simp [← hcontra])
        · exact hpre s2 hs3

/-! ## Relating the build loop to its input keys -/

lemma forall2_mem_left {α β : Type} {R : α → β → Prop} :
    ∀ {xs : List α} {ys : List β}, List.Forall₂ R xs ys →
      ∀ x ∈ xs, ∃ y ∈ ys, R x y := by
  intro xs ys h
  induction h with
  | nil => intro x hx; simp at hx
  | cons hR htail ih =>
    intro x hx
    rcases List.mem_cons.mp hx with rfl | hx2
    · exact ⟨_, by simp, hR⟩
    · obtain ⟨y, hy, hxy⟩ := ih x hx2
      exact ⟨y, by simp [hy], hxy⟩

lemma forall2_split_right {α β : Type} {R : α → β → Prop} :
    ∀ {xs : List α} {ys : List β}, List.Forall₂ R xs ys →
      ∀ {pre : List β} {y : β} {post : List β}, ys = pre ++ y :: post →
      ∃ xpre x xpost, xs = xpre ++ x :: xpost ∧ R x y ∧ List.Forall₂ R xpre pre := by
  intro xs ys h
  induction h with
  | nil => intro pre y post heq; exact absurd heq (by simp)
  | @cons a b as bs hR htail ih =>
    intro pre y post heq
    cases pre with
    | nil =>
      have hb : b = y ∧ bs = post := by simpa using heq
      exact ⟨[], a, as, rfl, hb.1 ▸ hR, List.Forall₂.nil⟩
    | cons p ps =>
      have hb : b = p ∧ bs = ps ++ y :: post := by simpa using heq
      obtain ⟨xpre, x, xpost, hx, hR2, hpre⟩ := ih hb.2
      exact ⟨a :: xpre, x, xpost, by simp [hx], hR2, hb.1 ▸ List.Forall₂.cons hR hpre⟩

lemma buildAux_cons_error (stp : SensingTimePosition) (bp : BandPosition)
    (p : String) (rest : List String) (acc : List TileRec) (e : BuildError)
    (he : extractTile stp bp p = .error e) :
    buildAux stp bp (p :: rest) acc = .error e := by
  unfold buildAux
  rw [he]

lemma buildAux_cons_ok (stp : SensingTimePosition) (bp : BandPosition)
    (p : String) (rest : List String) (acc : List TileRec) (r : TileRec)
    (he : extractTile stp bp p = .ok r) :
    buildAux stp bp (p :: rest) acc =
      if r.1 ∈ acc.map Prod.fst then buildAux stp bp rest acc
      else buildAux stp bp rest (acc ++ [r]) := by
  conv_lhs => unfold buildAux
  rw [he]

/-- A successful run of the build loop is the dedup of the per-key
extractions, key by key. -/
lemma buildAux_ok_forall2 (stp : SensingTimePosition) (bp : BandPosition) :
    ∀ (keys : List String) (acc ts : List TileRec),
      buildAux stp bp keys acc = .ok ts →
      ∃ rs, List.Forall₂ (fun k r => extractTile stp bp k = Except.ok r) keys rs ∧
        ts = dedupAux acc rs := by
  intro keys
  induction keys with
  | nil =>
    intro acc ts h
    simp only [buildAux, Except.ok.injEq] at h
    exact ⟨[], List.Forall₂.nil, by simp [dedupAux, h]⟩
  | cons p rest ih =>
    intro acc ts h
    cases he : extractTile stp bp p with
    | error e =>
      rw [buildAux_cons_error stp bp p rest acc e he] at h
      exact Except.noConfusion h
    | ok r =>
      rw [buildAux_cons_ok stp bp p rest acc r he] at h
      by_cases hm : r.1 ∈ acc.map Prod.fst
      · rw [if_pos hm] at h
        obtain ⟨rs, hf, hts⟩ := ih acc ts h
        refine ⟨r :: rs, List.Forall₂.cons he hf, ?_⟩
        simp only [dedupAux, if_pos hm]
        exact hts
      · rw [if_neg hm] at h
        obtain ⟨rs, hf, hts⟩ := ih (acc ++ [r]) ts h
        refine ⟨r :: rs, List.Forall₂.cons he hf, ?_⟩
        simp only [dedupAux, if_neg hm]
        exact hts

/-- C1 (amended): a successful `build_byoc_tiles` emits exactly one
TileRecord per distinct canonical path — the emitted canonical paths are
duplicate-free, every key's canonical path is represented, each emitted
record is the extraction of the first input key whose canonical path
matches it (so that key's sensing time wins) — and two keys collapse into
the same record exactly when they agree outside the substituted band token,
i.e. when they share all path segments but the last and the same
band-substituted filename segment. -/
theorem build_byoc_tiles_dedup (stp : SensingTimePosition) (bp : BandPosition)
    (keys : List String) (ts : List TileRec)
    (hok : build_byoc_tiles stp bp keys = .ok ts) :
    ((ts.map Prod.fst).Nodup) ∧
    (∀ k ∈ keys, ∀ c d, extractTile stp bp k = .ok (c, d) → c ∈ ts.map Prod.fst) ∧
    (∀ r ∈ ts, ∃ pre k post, keys = pre ++ k :: post ∧
      extractTile stp bp k = .ok r ∧
      ∀ k2 ∈ pre, ∀ d, ¬ extractTile stp bp k2 = .ok (r.1, d)) ∧
    (∀ k1 k2 c1 c2 d1 d2, k1 ∈ keys → k2 ∈ keys →
      extractTile stp bp k1 = .ok (c1, d1) → extractTile stp bp k2 = .ok (c2, d2) →
      (splitStr k1 "/").dropLast = (splitStr k2 "/").dropLast →
      bandSubstOf bp k1 = bandSubstOf bp k2 → c1 = c2) := by
  obtain ⟨rs, hf, hts⟩ := buildAux_ok_forall2 stp bp keys [] ts hok
  subst hts
  refine ⟨dedupAux_nodup rs [] (by simp), ?_, ?_, ?_⟩
  · intro k hk c d he
    obtain ⟨r, hr, hre⟩ := forall2_mem_left hf k hk
    have hrcd : r = (c, d) := by
      have := hre.symm.trans he
      injection this
    subst hrcd
    exact dedupAux_mem_fst rs [] (c, d) hr
  · intro r hr
    rcases dedupAux_first_wins rs [] r hr with habs | ⟨_, pre, post, heq, hpre⟩
    · simp at habs
    · obtain ⟨kpre, k, kpost, hkeq, hR, hfpre⟩ := forall2_split_right hf heq
      refine ⟨kpre, k, kpost, hkeq, hR, ?_⟩
      intro k2 hk2 d he
      obtain ⟨s, hs, hse⟩ := forall2_mem_left hfpre k2 hk2
      have hsrd : s = (r.1, d) := by
        have := hse.symm.trans he
        injection this
      have hne := hpre s hs
      rw [hsrd] at hne
      exact hne rfl
  · intro k1 k2 c1 c2 d1 d2 _ _ he1 he2 hdl hbs
    obtain ⟨t1, fn1, _, _, hfn1, hc1⟩ := extractTile_ok_inv stp bp k1 c1 d1 he1
    obtain ⟨t2, fn2, _, _, hfn2, hc2⟩ := extractTile_ok_inv stp bp k2 c2 d2 he2
    have hfn : fn1 = fn2 := by
      have := hfn1.symm.trans (hbs.trans hfn2)
      injection this
    rw [hc1, hc2, hdl, hfn]

/-- Witness for C1 (amended): two band files of the same S2 tile collapse
into one record carrying the first key's sensing time. -/
theorem build_byoc_tiles_dedup_witness :
    ((([("S2/20230615/(BAND)_10m.tif", (⟨2023, 6, 15, 0, 0, 0⟩ : DateTime))] :
        List TileRec).map Prod.fst).Nodup) ∧
    (∀ k ∈ ["S2/20230615/B04_10m.tif", "S2/20230615/B08_10m.tif"], ∀ c d,
      extractTile ⟨1, "_", 0, "%Y%m%d"⟩ ⟨-1, "_", 0⟩ k = .ok (c, d) →
      c ∈ ([("S2/20230615/(BAND)_10m.tif", (⟨2023, 6, 15, 0, 0, 0⟩ : DateTime))] :
        List TileRec).map Prod.fst) ∧
    (∀ r ∈ ([("S2/20230615/(BAND)_10m.tif", (⟨2023, 6, 15, 0, 0, 0⟩ : DateTime))] :
        List TileRec), ∃ pre k post,
      ["S2/20230615/B04_10m.tif", "S2/20230615/B08_10m.tif"] = pre ++ k :: post ∧
      extractTile ⟨1, "_", 0, "%Y%m%d"⟩ ⟨-1, "_", 0⟩ k = .ok r ∧
      ∀ k2 ∈ pre, ∀ d, ¬ extractTile ⟨1, "_", 0, "%Y%m%d"⟩ ⟨-1, "_", 0⟩ k2 =
        .ok (r.1, d)) ∧
    (∀ k1 k2 c1 c2 d1 d2,
      k1 ∈ ["S2/20230615/B04_10m.tif", "S2/20230615/B08_10m.tif"] →
      k2 ∈ ["S2/20230615/B04_10m.tif", "S2/20230615/B08_10m.tif"] →
      extractTile ⟨1, "_", 0, "%Y%m%d"⟩ ⟨-1, "_", 0⟩ k1 = .ok (c1, d1) →
      extractTile ⟨1, "_", 0, "%Y%m%d"⟩ ⟨-1, "_", 0⟩ k2 = .ok (c2, d2) →
      (splitStr k1 "/").dropLast = (splitStr k2 "/").dropLast →
      bandSubstOf ⟨-1, "_", 0⟩ k1 = bandSubstOf ⟨-1, "_", 0⟩ k2 → c1 = c2) :=
  build_byoc_tiles_dedup ⟨1, "_", 0, "%Y%m%d"⟩ ⟨-1, "_", 0⟩
    ["S2/20230615/B04_10m.tif", "S2/20230615/B08_10m.tif"]
    [("S2/20230615/(BAND)_10m.tif", ⟨2023, 6, 15, 0, 0, 0⟩)] (by decide)

/-- C1 (counterexample): when the configured band segment is not the last
path segment, two keys that differ only in the band token at the configured
position (segment 0 of `"B04_y/20230615/f.tif"` and
`"B08_y/20230615/f.tif"`, both substituting to `"(BAND)_y"` with all other
segments equal) do NOT collapse: the build emits two TileRecords with
distinct canonical paths, because the parent path always keeps every
segment but the last. -/
theorem build_byoc_tiles_band_collapse_counterexample :
    splitStr "B04_y/20230615/f.tif" "/" = ["B04_y", "20230615", "f.tif"] ∧
    splitStr "B08_y/20230615/f.tif" "/" = ["B08_y", "20230615", "f.tif"] ∧
    bandSubstOf ⟨0, "_", 0⟩ "B04_y/20230615/f.tif" = some "(BAND)_y" ∧
    bandSubstOf ⟨0, "_", 0⟩ "B08_y/20230615/f.tif" = some "(BAND)_y" ∧
    build_byoc_tiles ⟨1, "-", 0, "%Y%m%d"⟩ ⟨0, "_", 0⟩
        ["B04_y/20230615/f.tif", "B08_y/20230615/f.tif"] =
      .ok [("B04_y/20230615/(BAND)_y", ⟨2023, 6, 15, 0, 0, 0⟩),
           ("B08_y/20230615/(BAND)_y", ⟨2023, 6, 15, 0, 0, 0⟩)] ∧
    ("B04_y/20230615/(BAND)_y" : String) ≠ "B08_y/20230615/(BAND)_y" := by
  refine ⟨by decide, by decide, by decide, by decide, by decide, by decide⟩

/-! ## A malformed timestamp aborts the whole build -/

lemma buildAux_malformed (stp : SensingTimePosition) (bp : BandPosition) :
    ∀ (keys : List String) (acc : List TileRec),
      (∀ k ∈ keys, (dateTokenOf stp k).isSome ∧ (bandSubstOf bp k).isSome) →
      (∃ k ∈ keys, ∃ t, dateTokenOf stp k = some t ∧ strptime t stp.format = none) →
      ∃ tok, buildAux stp bp keys acc = .error (.malformedTimestamp tok) ∧
        strptime tok stp.format = none := by
  intro keys
  induction keys with
  | nil =>
    intro acc _ hbad
    obtain ⟨k, hk, _⟩ := hbad
    simp at hk
  | cons p rest ih =>
    intro acc hstruct hbad
    obtain ⟨hds, hbs⟩ := hstruct p (by simp)
    obtain ⟨t, ht⟩ := Option.isSome_iff_exists.mp hds
    obtain ⟨fn, hfn⟩ := Option.isSome_iff_exists.mp hbs
    cases hs : strptime t stp.format with
    | none =>
      refine ⟨t, ?_, hs⟩
      have he := extractTile_error_timestamp stp bp p t ht hs
      rw [buildAux_cons_error stp bp p rest acc _ he]
    | some d =>
      have he := extractTile_ok_parts stp bp p t d fn ht hs hfn
      have hbad2 : ∃ k ∈ rest, ∃ t2, dateTokenOf stp k = some t2 ∧
          strptime t2 stp.format = none := by
        obtain ⟨k, hk, t2, ht2, hs2⟩ := hbad
        rcases List.mem_cons.mp hk with rfl | hk2
        · rw [ht] at ht2
          injection ht2 with hh
          rw [← hh, hs] at hs2
          exact Option.noConfusion hs2
        · exact ⟨k, hk2, t2, ht2, hs2⟩
      have hstruct2 : ∀ k ∈ rest, (dateTokenOf stp k).isSome ∧
          (bandSubstOf bp k).isSome := fun k hk => hstruct k (by simp [hk])
      rw [buildAux_cons_ok stp bp p rest acc _ he]
      by_cases hm : (joinSep "/" ((splitStr p "/").dropLast) ++ "/" ++ fn) ∈
          acc.map Prod.fst
      · rw [if_pos hm]
        exact ih acc hstruct2 hbad2
      · rw [if_neg hm]
        exact ih (acc ++ [(joinSep "/" ((splitStr p "/").dropLast) ++ "/" ++ fn, d)])
          hstruct2 hbad2

/-- C7: when the convention structurally matches every key (tokens and band
substitution extract) but some key's date token is rejected by `strptime`,
the whole build raises the timestamp `ValueError` — no tile list is
returned, not even for the keys that parsed successfully. -/
theorem build_aborts_on_malformed_timestamp (stp : SensingTimePosition)
    (bp : BandPosition) (keys : List String)
    (hstruct : ∀ k ∈ keys, (dateTokenOf stp k).isSome ∧ (bandSubstOf bp k).isSome)
    (hbad : ∃ k ∈ keys, ∃ t, dateTokenOf stp k = some t ∧
      strptime t stp.format = none) :
    ∃ tok, build_byoc_tiles stp bp keys = .error (.malformedTimestamp tok) ∧
      strptime tok stp.format = none ∧
      ∀ ts, ¬ build_byoc_tiles stp bp keys = .ok ts := by
  obtain ⟨tok, herr, hs⟩ := buildAux_malformed stp bp keys [] hstruct hbad
  refine ⟨tok, herr, hs, ?_⟩
  intro ts h
  rw [build_byoc_tiles] at h
  rw [herr] at h
  exact Except.noConfusion h

/-- Witness for C7: the second key's date segment is `"abcd"`, which
`strptime` rejects for `"%Y%m%d"`, so the build of both keys fails whole. -/
theorem build_aborts_on_malformed_timestamp_witness :
    ∃ tok, build_byoc_tiles ⟨1, "-", 0, "%Y%m%d"⟩ ⟨-1, "_", 0⟩
        ["S2/20230615/B04_10m.tif", "S2/abcd/B08_10m.tif"] =
      .error (.malformedTimestamp tok) ∧
      strptime tok "%Y%m%d" = none ∧
      ∀ ts, ¬ build_byoc_tiles ⟨1, "-", 0, "%Y%m%d"⟩ ⟨-1, "_", 0⟩
        ["S2/20230615/B04_10m.tif", "S2/abcd/B08_10m.tif"] = .ok ts :=
  build_aborts_on_malformed_timestamp ⟨1, "-", 0, "%Y%m%d"⟩ ⟨-1, "_", 0⟩
    ["S2/20230615/B04_10m.tif", "S2/abcd/B08_10m.tif"] (by decide)
    ⟨"S2/abcd/B08_10m.tif", by decide, "abcd", by decide, by decide⟩


end SHByoc

